import Mathlib

/-!
Verification of the procpool scheduling core against its specification.

The Rust sources under `src/` (`hive/shared.rs`, `hive/husk.rs`, `atomic.rs`)
are shallowly embedded below.  Machine integers are modelled as `Nat` with
explicit bounds where overflow matters (`u64max`).  Code that can panic is
modelled with `Option` (`none` = panic).  Components of the repository whose
source files are not available (`DualCounter` from `hive/counter.rs`, the
`Outcome` enum, `Task`/`Context`, `Config`, the channel `SenderExt`, the
`RetryQueue`) are modelled from the specification; each such definition says
so in its doc comment.
-/

namespace Procpool

/-- The largest `u64` value, `2^64 - 1`. -/
def u64max : Nat := 2 ^ 64 - 1

/-- Modelled from the spec: the `Outcome` enum (its source file is not under
`src/`).  Tagged variant over a task index; payloads are abstracted to `Nat`. -/
inductive Outcome where
  | success (index : Nat) (value : Nat)
  | failure (index : Nat) (error : Nat)
  | panicked (index : Nat) (payload : Nat)
  | unprocessed (index : Nat) (input : Nat)
  | maxRetriesAttempted (index : Nat) (input : Nat) (lastError : Nat)
  deriving Repr, DecidableEq

/-- The index carried by an `Outcome` (the Rust `Outcome::index`). -/
def Outcome.index : Outcome → Nat
  | .success i _ => i
  | .failure i _ => i
  | .panicked i _ => i
  | .unprocessed i _ => i
  | .maxRetriesAttempted i _ _ => i

/-- Whether an outcome is the `Unprocessed` variant. -/
def Outcome.isUnprocessed : Outcome → Bool
  | .unprocessed _ _ => true
  | _ => false

/-- Modelled from the spec: a `Task` envelope (its source file is not under
`src/`).  The input is abstracted to `Nat`; the optional outcome sender is
abstracted to `Option Bool`, recording whether a non-blocking send on it
would succeed. -/
structure Task where
  input : Nat
  index : Nat
  attempt : Nat
  tx : Option Bool
  deriving Repr, DecidableEq

/-- Modelled from the spec: converting a task into an `Unprocessed` outcome. -/
def Task.into_unprocessed (t : Task) : Outcome :=
  Outcome.unprocessed t.index t.input

/-- Modelled from the spec: `Task::into_unprocessed_try_send` converts the
task into an `Unprocessed` outcome and attempts a non-blocking send to the
task's sender; the outcome is returned (for storage) when there is no sender
or the send fails. -/
def Task.into_unprocessed_try_send (t : Task) : Option Outcome :=
  match t.tx with
  | some true => none
  | some false => some t.into_unprocessed
  | none => some t.into_unprocessed

/-- The outcomes map (Rust `HashMap<usize, Outcome>`), modelled as an
association list with distinct keys. -/
abbrev OutcomeMap := List (Nat × Outcome)

/-- Lookup in the outcomes map (Rust `HashMap::get`). -/
def mapLookup (m : OutcomeMap) (i : Nat) : Option Outcome :=
  match m with
  | [] => none
  | (k, v) :: rest => if k = i then some v else mapLookup rest i

/-- Insert in the outcomes map, replacing any existing entry at the key
(Rust `HashMap::insert`). -/
def mapInsert (m : OutcomeMap) (i : Nat) (v : Outcome) : OutcomeMap :=
  match m with
  | [] => [(i, v)]
  | (k, w) :: rest => if k = i then (i, v) :: rest else (k, w) :: mapInsert rest i v

/-- Remove the entry at a key from the outcomes map (Rust `HashMap::remove`,
value-discarding part). -/
def mapRemove (m : OutcomeMap) (i : Nat) : OutcomeMap :=
  match m with
  | [] => []
  | (k, w) :: rest => if k = i then rest else (k, w) :: mapRemove rest i

/-- Modelled from the spec: the `DualCounter` (its source `hive/counter.rs`
is not under `src/`).  A pair (left = queued, right = active) of `u64`
counters; `increment_left` fails on overflow, `transfer` fails on overflow
or when `queued < n`, `decrement_right` fails when `active < n`. -/
structure DualCounter where
  left : Nat
  right : Nat
  deriving Repr, DecidableEq

/-- Modelled from the spec: add `n` to the queued side, failing on overflow. -/
def DualCounter.increment_left (c : DualCounter) (n : Nat) : Option DualCounter :=
  if c.left + n ≤ u64max then some ⟨c.left + n, c.right⟩ else none

/-- Modelled from the spec: subtract `n` from the active side, failing when
`active < n`. -/
def DualCounter.decrement_right (c : DualCounter) (n : Nat) : Option DualCounter :=
  if n ≤ c.right then some ⟨c.left, c.right - n⟩ else none

/-- Modelled from the spec: atomically move `n` units from queued to active,
failing on overflow or when `queued < n`. -/
def DualCounter.transfer (c : DualCounter) (n : Nat) : Option DualCounter :=
  if n ≤ c.left ∧ c.right + n ≤ u64max then some ⟨c.left - n, c.right + n⟩ else none

/-- Consistent snapshot `(queued, active)` of the counter pair. -/
def DualCounter.get (c : DualCounter) : Nat × Nat :=
  (c.left, c.right)

/-- Modelled from the spec: the `Config` record (its source file is not under
`src/`).  Only value contents are modelled; the `AtomicOption` wrappers around
the fields are dealt with separately (see `AtomicOption`). -/
structure Config where
  num_threads : Nat
  thread_name : Option Nat
  thread_stack_size : Option Nat
  max_retries : Option Nat
  retry_factor : Option Nat
  deriving Repr, DecidableEq

/-- Modelled from the spec: `Config::into_unsync` converts each field's
`AtomicOption` wrapper from the `Sync` to the `Unsync` variant, preserving
every stored value; at the value level it is the identity. -/
def Config.into_unsync (c : Config) : Config := c

/-- The `Shared` coordination record of `hive/shared.rs`.  Threads, locks and
condition variables are erased: the mutex-guarded task receiver becomes the
list `taskRx` of pending tasks, the retry queue becomes a deadline-sorted
list, and instants are `Nat` nanosecond timestamps. -/
structure Shared where
  config : Config
  queen : Nat
  numTasks : DualCounter
  nextTaskIndex : Nat
  numPanics : Nat
  poisoned : Bool
  suspended : Bool
  outcomes : OutcomeMap
  taskRx : List Task
  retryQueue : List (Nat × Task)
  nextRetry : Option Nat
  deriving Repr, DecidableEq

/-- `Shared::num_tasks`: the `(queued, active)` snapshot. -/
def Shared.num_tasks (s : Shared) : Nat × Nat :=
  s.numTasks.get

/-- `Shared::is_poisoned`. -/
def Shared.is_poisoned (s : Shared) : Bool :=
  s.poisoned

/-- `Shared::is_suspended`. -/
def Shared.is_suspended (s : Shared) : Bool :=
  s.suspended

/-- `Shared::has_work` (shared.rs lines 163-168): not poisoned, and either
active tasks exist, or the hive is not suspended and queued tasks exist. -/
def Shared.has_work (s : Shared) : Bool :=
  !s.is_poisoned &&
    (let (queued, active) := s.num_tasks
     active > 0 || (!s.is_suspended && queued > 0))

/-- `Shared::wait_on_done` executes `join_gate.wait_while(|| has_work())`;
its blocking predicate at a given state is therefore exactly `has_work`. -/
def Shared.wait_on_done_blocks (s : Shared) : Bool :=
  s.has_work

/-- The `MutError` enum of `atomic.rs`. -/
inductive MutError where
  | Unsync
  | Unset
  deriving Repr, DecidableEq

/-- The `AtomicOption` sum type of `atomic.rs`, for a numeric payload.  The
inner atomic cell is collapsed to its value; the payload is a 64-bit unsigned
integer (the `AtomicU64`/`AtomicUsize` instantiations), modelled as a `Nat`
taken modulo `2^64` where the source's arithmetic wraps. -/
inductive AtomicOption where
  | unsync (v : Option Nat)
  | sync (v : Option Nat)
  deriving Repr, DecidableEq

/-- `AtomicOption::add` (atomic.rs lines 307-313): on `Sync(Some(v))`, calls
`AtomicNumber::add`, i.e. `fetch_add` (atomic.rs lines 100-102), which adds
`rhs` to the stored value wrapping modulo `2^64` on overflow, and returns the
previous value; on `Unsync` returns `MutError::Unsync`, on `Sync(None)`
returns `MutError::Unset`.  The result pairs the returned value with the
(possibly updated) cell. -/
def AtomicOption.add (a : AtomicOption) (rhs : Nat) : Except MutError Nat × AtomicOption :=
  match a with
  | .unsync v => (.error .Unsync, .unsync v)
  | .sync none => (.error .Unset, .sync none)
  | .sync (some v) => (.ok v, .sync (some ((v + rhs) % 2 ^ 64)))

/-- `AtomicOption::set_max` (atomic.rs lines 318-326): on `Sync(Some(v))`,
runs `set_with(|current| (current < rhs).then_some(rhs))`, updating the cell
to `rhs` exactly when `v < rhs` and returning the previous value; the error
cases are as for `add`. -/
def AtomicOption.set_max (a : AtomicOption) (rhs : Nat) : Except MutError Nat × AtomicOption :=
  match a with
  | .unsync v => (.error .Unsync, .unsync v)
  | .sync none => (.error .Unset, .sync none)
  | .sync (some v) => (.ok v, .sync (some (if v < rhs then rhs else v)))

/-- `Shared::add_outcome` (shared.rs lines 238-241): insert the outcome into
the retained outcomes map under its own index. -/
def Shared.add_outcome (s : Shared) (o : Outcome) : Shared :=
  { s with outcomes := mapInsert s.outcomes o.index o }

/-- Modelled from the spec: `SenderExt::try_send_msg` (the `channel` module is
not under `src/`): a non-blocking send that consumes the message on success
and returns it back on failure. -/
def try_send_msg (sendOk : Bool) (o : Outcome) : Option Outcome :=
  if sendOk then none else some o

/-- `Shared::send_or_store_outcome` (shared.rs lines 110-118): if a sender is
supplied, attempt a non-blocking send and store the outcome in the outcomes
map only if the send fails; with no sender, always store it.  The returned
`Bool` records whether the outcome was delivered over the channel. -/
def Shared.send_or_store_outcome (s : Shared) (o : Outcome) (tx : Option Bool) :
    Shared × Bool :=
  match tx with
  | some sendOk =>
      match try_send_msg sendOk o with
      | some o2 => (s.add_outcome o2, false)
      | none => (s, true)
  | none => (s.add_outcome o, false)

/-- The free function `send_or_store` (shared.rs lines 307-316): convert each
task to `Unprocessed`, try-send it, and insert into the outcomes map those
given back (no sender, or send failed). -/
def send_or_store (tasks : List Task) (outcomes : OutcomeMap) : OutcomeMap :=
  match tasks with
  | [] => outcomes
  | t :: rest =>
      match t.into_unprocessed_try_send with
      | some o => send_or_store rest (mapInsert outcomes o.index o)
      | none => send_or_store rest outcomes

/-- `Shared::drain_tasks_into_unprocessed`, no-retry build (shared.rs lines
368-372): drain the task receiver, send-or-store each task as `Unprocessed`. -/
def Shared.drain_tasks_into_unprocessed_noretry (s : Shared) : Shared :=
  { s with outcomes := send_or_store s.taskRx s.outcomes, taskRx := [] }

/-- `Shared::drain_tasks_into_unprocessed`, retry build (shared.rs lines
491-497): additionally drains the retry queue after the task receiver. -/
def Shared.drain_tasks_into_unprocessed_retry (s : Shared) : Shared :=
  { s with
    outcomes := send_or_store (s.retryQueue.map Prod.snd) (send_or_store s.taskRx s.outcomes)
    taskRx := []
    retryQueue := [] }

/-- `Shared::poison` (shared.rs lines 200-203), no-retry build: set the
poisoned flag, then drain all queued tasks into `Unprocessed` outcomes. -/
def Shared.poison_noretry (s : Shared) : Shared :=
  Shared.drain_tasks_into_unprocessed_noretry { s with poisoned := true }

/-- `Shared::poison` (shared.rs lines 200-203), retry build. -/
def Shared.poison_retry (s : Shared) : Shared :=
  Shared.drain_tasks_into_unprocessed_retry { s with poisoned := true }

/-- The `NextTaskError` enum of shared.rs (the `CounterError` payload of
`InvalidCounter` is erased, its type living in the missing `counter.rs`). -/
inductive NextTaskError where
  | Disconnected
  | Poisoned
  | InvalidCounter
  deriving Repr, DecidableEq

/-- The final stage of `Shared::next_task` in the no-retry build (shared.rs
lines 355-362): a task having been obtained, transfer one unit from queued to
active; on counter failure, poison the hive and return `InvalidCounter`. -/
def Shared.next_task_transfer_noretry (s : Shared) (task : Task) :
    Except NextTaskError Task × Shared :=
  match s.numTasks.transfer 1 with
  | some c => (.ok task, { s with numTasks := c })
  | none => (.error .InvalidCounter, s.poison_noretry)

/-- The final stage of `Shared::next_task` in the retry build (shared.rs
lines 482-485): on counter failure, return `InvalidCounter` without touching
the hive state (no poisoning). -/
def Shared.next_task_transfer_retry (s : Shared) (task : Task) :
    Except NextTaskError Task × Shared :=
  match s.numTasks.transfer 1 with
  | some c => (.ok task, { s with numTasks := c })
  | none => (.error .InvalidCounter, s)

/-- Rust `u64::checked_pow` specialised to base 2 (shared.rs line 433):
`some (2^e)` when it fits in a `u64`, otherwise `none`. -/
def checked_pow2 (e : Nat) : Option Nat :=
  if 2 ^ e ≤ u64max then some (2 ^ e) else none

/-- Rust `u64::checked_mul` (shared.rs line 436). -/
def checked_mul (a b : Nat) : Option Nat :=
  if a * b ≤ u64max then some (a * b) else none

/-- The delay computation of `Shared::queue_retry` (shared.rs lines 428-442),
in nanoseconds: with `retry_factor` unset the delay is zero; with it set to
`rf`, the code computes `2u64.checked_pow(ctx.attempt() - 1)`, multiplies by
`rf` saturating at `u64::MAX` via `checked_mul(..).or(Some(u64::MAX))`, and
`unwrap`s.  `none` models a panic: the subtraction underflows at `attempt = 0`
and the `unwrap` fails when `checked_pow` overflows (`attempt - 1 ≥ 64`). -/
def queue_retry_delay (retry_factor : Option Nat) (attempt : Nat) : Option Nat :=
  match retry_factor with
  | none => some 0
  | some rf =>
      if attempt = 0 then none
      else
        (checked_pow2 (attempt - 1)).bind fun multiplier =>
          (checked_mul rf multiplier).or (some u64max)

/-- `Shared::update_next_retry` (shared.rs lines 411-420) as a pure function
on the `next_retry` slot: with `some new_val`, the slot is replaced only when
it is empty or the new deadline is strictly earlier than the stored one; with
`none`, the slot is cleared. -/
def update_next_retry (cur : Option Nat) (instant : Option Nat) : Option Nat :=
  match instant with
  | some new_val =>
      match cur with
      | some cur_val => if new_val < cur_val then some new_val else some cur_val
      | none => some new_val
  | none => none

/-- Modelled from the spec: `RetryQueue::try_pop` pops the top task iff its
deadline has passed.  The min-heap is modelled as a deadline-sorted list. -/
def queue_try_pop (q : List (Nat × Task)) (now : Nat) : Option Task × List (Nat × Task) :=
  match q with
  | [] => (none, [])
  | (d, t) :: rest => if d ≤ now then (some t, rest) else (none, (d, t) :: rest)

/-- Modelled from the spec: `RetryQueue::next_available` peeks the deadline of
the top of the heap. -/
def queue_next_available (q : List (Nat × Task)) : Option Nat :=
  q.head?.map Prod.fst

/-- The retry-queue branch of `next_task` in the retry build (shared.rs lines
464-474): when the `next_retry` slot holds a deadline that has passed, lock
the queue and `try_pop`; on success, update the slot from the new top of the
queue and break with the task.  Returns the popped task, the new slot value,
and the new queue. -/
def next_task_pop_retry (slot : Option Nat) (q : List (Nat × Task)) (now : Nat) :
    Option Task × Option Nat × List (Nat × Task) :=
  let has_retry : Bool :=
    match slot with
    | some d => decide (d ≤ now)
    | none => false
  if has_retry then
    match queue_try_pop q now with
    | (some t, q2) => (some t, update_next_retry slot (queue_next_available q2), q2)
    | (none, q2) => (none, slot, q2)
  else (none, slot, q)

/-- `Shared::prepare_task` (shared.rs lines 65-72): increment the queued side
of the counter by one (`none` models the "overflowed queued task counter"
panic), take the next task index, and build a task whose context carries that
index and attempt counter 0. -/
def Shared.prepare_task (s : Shared) (input : Nat) (tx : Option Bool) :
    Option (Task × Shared) :=
  (s.numTasks.increment_left 1).map fun c =>
    ({ input := input, index := s.nextTaskIndex, attempt := 0, tx := tx },
     { s with numTasks := c, nextTaskIndex := s.nextTaskIndex + 1 })

/-- The eager prefix of `Shared::prepare_batch` (shared.rs lines 82-86),
executed at call time before the returned lazy iterator yields anything:
increment the queued side of the counter by `min_size` (`none` models the
overflow panic) and advance `next_task_index` by `min_size`, reserving the
index range `[index_start, index_end)`.  Returns
`(index_start, index_end, new state)`. -/
def Shared.prepare_batch_reserve (s : Shared) (min_size : Nat) :
    Option (Nat × Nat × Shared) :=
  (s.numTasks.increment_left min_size).map fun c =>
    (s.nextTaskIndex, s.nextTaskIndex + min_size,
     { s with numTasks := c, nextTaskIndex := s.nextTaskIndex + min_size })

/-- The lazy iterator returned by `Shared::prepare_batch` (shared.rs lines
87-105), fully consumed: inputs are zipped with the reserved indices; while
both last, a task with the reserved index is yielded; each excess input
beyond the reserved indices falls back to `prepare_task`; if the reserved
indices outlast the inputs, the iterator panics ("batch contained fewer than
min_size items").  Returns the yielded tasks, the resulting state, and
whether consumption panicked. -/
def Shared.prepare_batch_consume (s : Shared) (inputs : List Nat)
    (reserved : List Nat) (tx : Option Bool) : List Task × Shared × Bool :=
  match inputs, reserved with
  | [], [] => ([], s, false)
  | [], _ :: _ => ([], s, true)
  | input :: rest, idx :: ridx =>
      let r := s.prepare_batch_consume rest ridx tx
      ({ input := input, index := idx, attempt := 0, tx := tx } :: r.1, r.2)
  | input :: rest, [] =>
      match s.prepare_task input tx with
      | none => ([], s, true)
      | some (t, s1) =>
          let r := s1.prepare_batch_consume rest [] tx
          (t :: r.1, r.2)

/-- The `Husk` record of `hive/husk.rs`: the remnants of a hive — config,
queen, panic count and outcomes map.  No threads, no channels. -/
structure Husk where
  config : Config
  queen : Nat
  num_panics : Nat
  outcomes : OutcomeMap
  deriving Repr, DecidableEq

/-- `Shared::try_into_husk`, no-retry build (shared.rs lines 378-388): drain
the task receiver, send-or-store every still-queued task as `Unprocessed`,
and build a `Husk` from the unsynced config, the queen, the panic count and
the resulting outcomes. -/
def Shared.try_into_husk (s : Shared) : Husk :=
  { config := s.config.into_unsync
    queen := s.queen
    num_panics := s.numPanics
    outcomes := send_or_store s.taskRx s.outcomes }

/-- `Husk::as_builder` (husk.rs lines 49-51): a builder carrying a clone of
the preserved config (the `Builder` is identified with its `Config`). -/
def Husk.as_builder (h : Husk) : Config :=
  h.config

/-- Modelled from the spec: `Builder::build` (the builder's source is not
under `src/`) creates a fresh hive — a new `Shared` with the builder's
config, the provided queen, zeroed counters and flags, and empty queues. -/
def build (b : Config) (queen : Nat) : Shared :=
  { config := b
    queen := queen
    numTasks := { left := 0, right := 0 }
    nextTaskIndex := 0
    numPanics := 0
    poisoned := false
    suspended := false
    outcomes := []
    taskRx := []
    retryQueue := []
    nextRetry := none }

/-- `Husk::into_hive` (husk.rs lines 55-57): build a new hive from
`as_builder()` and the preserved queen. -/
def Husk.into_hive (h : Husk) : Shared :=
  build h.as_builder h.queen

/-- `Husk::collect_unprocessed` (husk.rs lines 59-67): the inputs of all
`Unprocessed` outcomes in an outcomes map. -/
def collect_unprocessed (outcomes : OutcomeMap) : List Nat :=
  outcomes.filterMap fun e =>
    match e.2 with
    | Outcome.unprocessed _ input => some input
    | _ => none

/-- The filter predicate of `Shared::take_unprocessed` (shared.rs line 255):
`matches!(outcomes.get(index), Some(Outcome::Unprocessed {..}))`. -/
def lookup_is_unprocessed (m : OutcomeMap) (i : Nat) : Bool :=
  match mapLookup m i with
  | some o => o.isUnprocessed
  | none => false

/-- `Shared::take_unprocessed` (shared.rs lines 250-261), first phase:
collect the keys of all stored outcomes whose variant is `Unprocessed`. -/
def unprocessed_indices (m : OutcomeMap) : List Nat :=
  (m.map Prod.fst).filter (lookup_is_unprocessed m)

/-- `Shared::take_unprocessed`, second phase: remove each collected index in
turn and return the removed outcomes (`outcomes.remove(&index).unwrap()`);
`none` models the `unwrap` panic on a missing key. -/
def remove_all (idxs : List Nat) (m : OutcomeMap) : Option (List Outcome × OutcomeMap) :=
  match idxs with
  | [] => some ([], m)
  | i :: rest =>
      match mapLookup m i with
      | some o => (remove_all rest (mapRemove m i)).map fun r => (o :: r.1, r.2)
      | none => none

/-- `Shared::take_unprocessed` (shared.rs lines 250-261): remove and return
all retained `Unprocessed` outcomes. -/
def take_unprocessed (m : OutcomeMap) : Option (List Outcome × OutcomeMap) :=
  remove_all (unprocessed_indices m) m

/-- A concrete task, used in closed instances of the theorems below. -/
def taskA : Task :=
  { input := 7, index := 3, attempt := 1, tx := none }

/-- A second concrete task with a later retry deadline. -/
def taskB : Task :=
  { input := 8, index := 4, attempt := 1, tx := none }

/-- A concrete `Shared` state whose queued counter is zero (so a transfer
fails), used in closed instances of the theorems below. -/
def sharedEmptyQueue : Shared :=
  { config := { num_threads := 4, thread_name := none, thread_stack_size := none
                max_retries := some 3, retry_factor := some 1 }
    queen := 0
    numTasks := { left := 0, right := 0 }
    nextTaskIndex := 5
    numPanics := 0
    poisoned := false
    suspended := false
    outcomes := []
    taskRx := []
    retryQueue := []
    nextRetry := none }

/-- A concrete outcomes map holding a mix of variants, used in closed
instances of the theorems below. -/
def mapMixed : OutcomeMap :=
  [(1, Outcome.success 1 10), (2, Outcome.unprocessed 2 20),
   (3, Outcome.unprocessed 3 30), (4, Outcome.failure 4 40)]

/-- C1: for every state of `Shared`, `has_work()` returns true iff the
poisoned flag is unset and either the active task count is positive, or the
suspended flag is unset and the queued task count is positive; and the
predicate on which `wait_on_done` blocks is exactly `has_work()`. -/
theorem C1_has_work_wait_on_done (s : Shared) :
    s.wait_on_done_blocks = s.has_work ∧
    (s.has_work = true ↔
      s.poisoned = false ∧
        (0 < s.numTasks.right ∨ (s.suspended = false ∧ 0 < s.numTasks.left))) := by
  refine ⟨rfl, ?_⟩
  simp [Shared.has_work, Shared.is_poisoned, Shared.is_suspended, Shared.num_tasks,
    DualCounter.get]

/-- C9 counterexample: `add` on `Sync(Some(u64::MAX))` with `rhs = 1` stores
`0` — `fetch_add` wraps modulo `2^64` — not the claimed sum `v + rhs`
(`2^64 ≠ 0`), while still returning the previous value. -/
theorem C9_counterexample :
    AtomicOption.add (.sync (some (2 ^ 64 - 1))) 1 =
      (.ok (2 ^ 64 - 1), .sync (some 0)) ∧
    (2 ^ 64 - 1) + 1 ≠ 0 := by
  constructor
  · show (Except.ok (2 ^ 64 - 1), AtomicOption.sync (some ((2 ^ 64 - 1 + 1) % 2 ^ 64))) =
      (.ok (2 ^ 64 - 1), .sync (some 0))
    norm_num
  · decide

/-- C9 amended: `AtomicOption.add` and `AtomicOption.set_max` return
`Err(MutError::Unsync)` on the `Unsync` variant and `Err(MutError::Unset)` on
`Sync(None)`, leaving the stored value unchanged in both error cases; on
`Sync(Some(v))` they succeed, returning the previous value `v` and setting
the stored value to `(v + rhs) mod 2^64` — `v + rhs` wrapping on overflow,
as `fetch_add` does — respectively to the maximum of `v` and `rhs`. -/
theorem C9_amended_atomic_option_add_set_max (rhs : Nat) :
    (∀ v, AtomicOption.add (.unsync v) rhs = (.error .Unsync, .unsync v)) ∧
    AtomicOption.add (.sync none) rhs = (.error .Unset, .sync none) ∧
    (∀ v, AtomicOption.add (.sync (some v)) rhs =
      (.ok v, .sync (some ((v + rhs) % 2 ^ 64)))) ∧
    (∀ v, AtomicOption.set_max (.unsync v) rhs = (.error .Unsync, .unsync v)) ∧
    AtomicOption.set_max (.sync none) rhs = (.error .Unset, .sync none) ∧
    (∀ v, AtomicOption.set_max (.sync (some v)) rhs = (.ok v, .sync (some (max v rhs)))) := by
  refine ⟨fun v => rfl, rfl, fun v => rfl, fun v => rfl, rfl, fun v => ?_⟩
  simp only [AtomicOption.set_max, Prod.mk.injEq, AtomicOption.sync.injEq, Option.some.injEq]
  refine ⟨trivial, ?_⟩
  split <;> omega

/-- C2 counterexample: with `retry_factor = 1` and a context carrying attempt
counter `1`, `queue_retry` computes a delay of `1` nanosecond, while the claim
requires `retry_factor × 2^attempt = 2` nanoseconds (no saturation involved:
`2 ≤ u64::MAX`). -/
theorem C2_counterexample :
    queue_retry_delay (some 1) 1 = some 1 ∧
    min (1 * 2 ^ 1) u64max = 2 ∧
    some 1 ≠ (some 2 : Option Nat) :=
  ⟨rfl, by decide, by decide⟩

/-- C2 amended: for a retried task whose context carries attempt counter
`a + 1` at the time `queue_retry` runs, with `retry_factor = rf` set and the
exponentiation `2^a` representable in a `u64`, the delay is
`rf × 2^a` nanoseconds saturating at `u64::MAX` nanoseconds on multiplication
overflow (the exponent is one less than the attempt counter; the computation
panics when the attempt counter is `0` or when `2^(attempt-1)` itself
overflows); when `retry_factor` is unset the delay is zero. -/
theorem C2_amended_backoff (rf a : Nat) (h : 2 ^ a ≤ u64max) :
    queue_retry_delay (some rf) (a + 1) = some (min (rf * 2 ^ a) u64max) ∧
    (∀ attempt, queue_retry_delay none attempt = some 0) := by
  refine ⟨?_, fun attempt => rfl⟩
  show (if a + 1 = 0 then none
        else (checked_pow2 (a + 1 - 1)).bind fun multiplier =>
          (checked_mul rf multiplier).or (some u64max)) = some (min (rf * 2 ^ a) u64max)
  rw [if_neg (Nat.succ_ne_zero a), Nat.add_sub_cancel]
  unfold checked_pow2
  rw [if_pos h]
  show (checked_mul rf (2 ^ a)).or (some u64max) = some (min (rf * 2 ^ a) u64max)
  unfold checked_mul
  by_cases hm : rf * 2 ^ a ≤ u64max
  · rw [if_pos hm]
    show some (rf * 2 ^ a) = some (min (rf * 2 ^ a) u64max)
    rw [Nat.min_eq_left hm]
  · rw [if_neg hm]
    show some u64max = some (min (rf * 2 ^ a) u64max)
    rw [Nat.min_eq_right (Nat.le_of_not_le hm)]

/-- C2 witness: the amended backoff theorem at `rf = 5`, `a = 2`. -/
theorem C2_amended_backoff_witness :
    2 ^ 2 ≤ u64max ∧ queue_retry_delay (some 5) 3 = some (min (5 * 2 ^ 2) u64max) :=
  ⟨by decide, (C2_amended_backoff 5 2 (by decide)).1⟩

/-- C3 counterexample: in the retry build, when `next_task` has obtained a
task but the counter transfer fails, the hive is not poisoned:
`next_task_transfer_retry` returns `InvalidCounter` yet the poisoned flag of
the resulting state is still `false`. -/
theorem C3_counterexample :
    (sharedEmptyQueue.next_task_transfer_retry taskA).1 = .error .InvalidCounter ∧
    (sharedEmptyQueue.next_task_transfer_retry taskA).2.poisoned = false :=
  ⟨rfl, rfl⟩

/-- C3 amended: whenever `next_task` obtains a task but the transfer of one
unit from queued to active fails, the no-retry build poisons the hive and
returns `InvalidCounter`, while the retry build returns `InvalidCounter`
leaving the state — in particular the poisoned flag — unchanged. -/
theorem C3_amended_transfer_failure (s : Shared) (t : Task)
    (h : s.numTasks.transfer 1 = none) :
    s.next_task_transfer_noretry t = (.error .InvalidCounter, s.poison_noretry) ∧
    (s.next_task_transfer_noretry t).2.poisoned = true ∧
    s.next_task_transfer_retry t = (.error .InvalidCounter, s) := by
  unfold Shared.next_task_transfer_noretry Shared.next_task_transfer_retry
  rw [h]
  exact ⟨rfl, rfl, rfl⟩

/-- C3 witness: the amended transfer-failure theorem at a concrete state with
zero queued tasks. -/
theorem C3_amended_transfer_failure_witness :
    sharedEmptyQueue.numTasks.transfer 1 = none ∧
    (sharedEmptyQueue.next_task_transfer_noretry taskA).2.poisoned = true :=
  ⟨rfl, (C3_amended_transfer_failure sharedEmptyQueue taskA rfl).2.1⟩

/-- C6: `send_or_store_outcome` with a sender attempts a non-blocking send
and inserts the outcome into the outcomes map exactly when the send fails;
with no sender it always inserts; in every case the outcome reaches exactly
one destination (delivered on the channel with the map untouched, or stored
in the map under its index). -/
theorem C6_send_or_store_outcome (s : Shared) (o : Outcome) :
    (∀ sendOk, s.send_or_store_outcome o (some sendOk) =
        if sendOk then (s, true) else (s.add_outcome o, false)) ∧
    s.send_or_store_outcome o none = (s.add_outcome o, false) ∧
    (∀ tx, ((s.send_or_store_outcome o tx).2 = true ∧
              (s.send_or_store_outcome o tx).1 = s) ∨
           ((s.send_or_store_outcome o tx).2 = false ∧
              (s.send_or_store_outcome o tx).1.outcomes = mapInsert s.outcomes o.index o)) := by
  refine ⟨fun sendOk => ?_, rfl, fun tx => ?_⟩
  · cases sendOk <;> rfl
  · rcases tx with _ | b
    · exact Or.inr ⟨rfl, rfl⟩
    · cases b
      · exact Or.inr ⟨rfl, rfl⟩
      · exact Or.inl ⟨rfl, rfl⟩

/-- C4 counterexample: the slot holds deadline 1, the queue holds tasks at
deadlines 1 and 5, and the time is 1.  The pop succeeds, the new top of the
queue has deadline 5, yet the slot after the pop still holds 1: it is not set
to the deadline of the new top, because `update_next_retry` only ever lowers
the stored value. -/
theorem C4_counterexample :
    (next_task_pop_retry (some 1) [(1, taskA), (5, taskB)] 1).1 = some taskA ∧
    (next_task_pop_retry (some 1) [(1, taskA), (5, taskB)] 1).2.1 = some 1 ∧
    queue_next_available [(5, taskB)] = some 5 ∧
    some 1 ≠ (some 5 : Option Nat) :=
  ⟨rfl, rfl, rfl, by decide⟩

/-- C4 amended: after a worker pops a task in `next_task`, the deadline slot
is updated with `update_next_retry` from the new top of the retry queue: it
is cleared when the queue becomes empty, and otherwise lowered to the new
top's deadline only when that deadline is earlier than the stored value
(becoming `min` of the two), rather than always set to the new top; on push,
the slot is replaced exactly when it is empty or the new deadline is earlier
than the stored one. -/
theorem C4_amended_next_retry_slot (sd d now : Nat) (t : Task)
    (rest : List (Nat × Task)) (hs : sd ≤ now) (hd : d ≤ now) :
    (next_task_pop_retry (some sd) ((d, t) :: rest) now =
       (some t, update_next_retry (some sd) (queue_next_available rest), rest)) ∧
    (rest = [] → update_next_retry (some sd) (queue_next_available rest) = none) ∧
    (∀ d2 t2 rest2, rest = (d2, t2) :: rest2 →
       update_next_retry (some sd) (queue_next_available rest) = some (min d2 sd)) ∧
    (∀ cur v, update_next_retry (some cur) (some v) = some (min v cur)) ∧
    (∀ v, update_next_retry none (some v) = some v) := by
  have hmin : ∀ cur v : Nat, update_next_retry (some cur) (some v) = some (min v cur) := by
    intro cur v
    show (if v < cur then some v else some cur) = some (min v cur)
    split
    · simp only [Option.some.injEq]
      omega
    · simp only [Option.some.injEq]
      omega
  refine ⟨?_, ?_, ?_, hmin, fun v => rfl⟩
  · simp [next_task_pop_retry, queue_try_pop, hs, hd]
  · intro h
    subst h
    rfl
  · intro d2 t2 rest2 h
    subst h
    exact hmin sd d2

/-- C4 witness: the amended slot-update theorem at the concrete pop of
`C4_counterexample`. -/
theorem C4_amended_next_retry_slot_witness :
    (1 : Nat) ≤ 1 ∧
    next_task_pop_retry (some 1) [(1, taskA), (5, taskB)] 1 =
      (some taskA, update_next_retry (some 1) (queue_next_available [(5, taskB)]),
       [(5, taskB)]) :=
  ⟨by decide,
   (C4_amended_next_retry_slot 1 1 1 taskA [(5, taskB)] (by decide) (by decide)).1⟩

/-- Consuming the batch iterator with reserved indices `range' a k`, from a
state whose next task index is `a + k`, yields one task per input with
consecutive indices starting at `a` (reserved first, then fresh ones from
`prepare_task`), and panics exactly when the inputs run out before the
reserved indices do. -/
theorem prepare_batch_consume_spec (inputs : List Nat) :
    ∀ (s : Shared) (a k : Nat) (tx : Option Bool),
      s.nextTaskIndex = a + k →
      s.numTasks.left + inputs.length ≤ u64max + k →
      (s.prepare_batch_consume inputs (List.range' a k) tx).1.map Task.index =
          List.range' a inputs.length ∧
      (s.prepare_batch_consume inputs (List.range' a k) tx).1.length = inputs.length ∧
      (s.prepare_batch_consume inputs (List.range' a k) tx).2.2 =
          decide (inputs.length < k) := by
  induction inputs with
  | nil =>
      intro s a k tx hidx hov
      cases k with
      | zero => exact ⟨rfl, rfl, rfl⟩
      | succ k2 =>
          rw [List.range'_succ]
          refine ⟨rfl, rfl, ?_⟩
          have hdec : decide (([] : List Nat).length < k2 + 1) = true := by simp
          rw [hdec]
          rfl
  | cons input rest ih =>
      intro s a k tx hidx hov
      cases k with
      | zero =>
          rw [List.range'_zero]
          have hle : s.numTasks.left + 1 ≤ u64max := by
            simp only [List.length_cons] at hov
            omega
          have hpt : s.prepare_task input tx =
              some ({ input := input, index := s.nextTaskIndex, attempt := 0, tx := tx },
                    { s with numTasks := ⟨s.numTasks.left + 1, s.numTasks.right⟩,
                             nextTaskIndex := s.nextTaskIndex + 1 }) := by
            unfold Shared.prepare_task DualCounter.increment_left
            rw [if_pos hle]
            rfl
          have h2 := ih
            { s with numTasks := ⟨s.numTasks.left + 1, s.numTasks.right⟩,
                     nextTaskIndex := s.nextTaskIndex + 1 }
            (a + 1) 0 tx (by simp [hidx]) (by simp only [List.length_cons] at hov; simp; omega)
          rw [List.range'_zero] at h2
          have hidx0 : s.nextTaskIndex = a := by omega
          refine ⟨?_, ?_, ?_⟩
          · simp only [Shared.prepare_batch_consume, hpt, List.map_cons, List.length_cons,
              List.range'_succ, List.cons.injEq]
            exact ⟨hidx0, h2.1⟩
          · simp only [Shared.prepare_batch_consume, hpt, List.length_cons]
            rw [h2.2.1]
          · simp only [Shared.prepare_batch_consume, hpt]
            rw [h2.2.2]
            simp
      | succ k2 =>
          rw [List.range'_succ]
          have h2 := ih s (a + 1) k2 tx (by omega) (by simp only [List.length_cons] at hov; omega)
          refine ⟨?_, ?_, ?_⟩
          · simp only [Shared.prepare_batch_consume, List.map_cons, List.length_cons,
              List.range'_succ, List.cons.injEq]
            exact ⟨trivial, h2.1⟩
          · simp only [Shared.prepare_batch_consume, List.length_cons]
            rw [h2.2.1]
          · simp only [Shared.prepare_batch_consume]
            rw [h2.2.2]
            exact decide_eq_decide.mpr (by simp)

/-- C5: with `n` inputs and `n ≥ min_size` (and no counter overflow), the
iterator of `prepare_batch(min_size, ..)` yields exactly `n` tasks with
pairwise distinct indices, the first `min_size` carrying the consecutive
pre-reserved indices and the excess getting fresh consecutive indices from
`prepare_task`, without panicking; with fewer than `min_size` inputs,
consuming the iterator panics. -/
theorem C5_prepare_batch (s : Shared) (inputs : List Nat) (m : Nat) (tx : Option Bool)
    (hover : s.numTasks.left + max inputs.length m ≤ u64max) :
    ∃ s1,
      s.prepare_batch_reserve m = some (s.nextTaskIndex, s.nextTaskIndex + m, s1) ∧
      (s1.prepare_batch_consume inputs (List.range' s.nextTaskIndex m) tx).1.length
        = inputs.length ∧
      (s1.prepare_batch_consume inputs (List.range' s.nextTaskIndex m) tx).1.map Task.index
        = List.range' s.nextTaskIndex inputs.length ∧
      ((s1.prepare_batch_consume inputs (List.range' s.nextTaskIndex m) tx).1.map
          Task.index).Nodup ∧
      (m ≤ inputs.length →
        (s1.prepare_batch_consume inputs (List.range' s.nextTaskIndex m) tx).2.2 = false ∧
        ((s1.prepare_batch_consume inputs (List.range' s.nextTaskIndex m) tx).1.map
            Task.index).take m = List.range' s.nextTaskIndex m) ∧
      (inputs.length < m →
        (s1.prepare_batch_consume inputs (List.range' s.nextTaskIndex m) tx).2.2 = true) := by
  have hm : s.numTasks.left + m ≤ u64max :=
    le_trans (Nat.add_le_add_left (Nat.le_max_right _ _) _) hover
  have hn : s.numTasks.left + inputs.length ≤ u64max :=
    le_trans (Nat.add_le_add_left (Nat.le_max_left _ _) _) hover
  let s1 : Shared :=
    { s with
      numTasks := ⟨s.numTasks.left + m, s.numTasks.right⟩
      nextTaskIndex := s.nextTaskIndex + m }
  refine ⟨s1, ?_, ?_⟩
  · unfold Shared.prepare_batch_reserve DualCounter.increment_left
    rw [if_pos hm]
    rfl
  · have hspec := prepare_batch_consume_spec inputs s1 s.nextTaskIndex m tx rfl
      (by show s.numTasks.left + m + inputs.length ≤ u64max + m; omega)
    refine ⟨hspec.2.1, hspec.1, ?_, fun hle => ⟨?_, ?_⟩, fun hlt => ?_⟩
    · rw [hspec.1]
      exact List.nodup_range' _ _
    · rw [hspec.2.2]
      exact decide_eq_false (Nat.not_lt.mpr hle)
    · rw [hspec.1]
      have hsplit : List.range' s.nextTaskIndex inputs.length =
          List.range' s.nextTaskIndex m ++
            List.range' (s.nextTaskIndex + m) (inputs.length - m) := by
        rw [List.range'_append_1]
        congr 1
        omega
      rw [hsplit, List.take_left' (by simp)]
    · rw [hspec.2.2]
      exact decide_eq_true hlt

/-- C5 witness: the batch theorem at a concrete state, three inputs and
`min_size = 2`. -/
theorem C5_prepare_batch_witness :
    sharedEmptyQueue.numTasks.left + max ([10, 11, 12] : List Nat).length 2 ≤ u64max ∧
    (∃ s1,
      sharedEmptyQueue.prepare_batch_reserve 2 =
        some (sharedEmptyQueue.nextTaskIndex, sharedEmptyQueue.nextTaskIndex + 2, s1) ∧
      (s1.prepare_batch_consume [10, 11, 12]
          (List.range' sharedEmptyQueue.nextTaskIndex 2) none).1.length
        = ([10, 11, 12] : List Nat).length ∧
      (s1.prepare_batch_consume [10, 11, 12]
          (List.range' sharedEmptyQueue.nextTaskIndex 2) none).1.map Task.index
        = List.range' sharedEmptyQueue.nextTaskIndex ([10, 11, 12] : List Nat).length ∧
      ((s1.prepare_batch_consume [10, 11, 12]
          (List.range' sharedEmptyQueue.nextTaskIndex 2) none).1.map Task.index).Nodup ∧
      (2 ≤ ([10, 11, 12] : List Nat).length →
        (s1.prepare_batch_consume [10, 11, 12]
            (List.range' sharedEmptyQueue.nextTaskIndex 2) none).2.2 = false ∧
        ((s1.prepare_batch_consume [10, 11, 12]
            (List.range' sharedEmptyQueue.nextTaskIndex 2) none).1.map Task.index).take 2
          = List.range' sharedEmptyQueue.nextTaskIndex 2) ∧
      (([10, 11, 12] : List Nat).length < 2 →
        (s1.prepare_batch_consume [10, 11, 12]
            (List.range' sharedEmptyQueue.nextTaskIndex 2) none).2.2 = true)) :=
  ⟨by decide, C5_prepare_batch sharedEmptyQueue [10, 11, 12] 2 none (by decide)⟩

/-- C10: calling `prepare_batch(min_size, ..)` increments the queued side of
the `DualCounter` by `min_size` and advances `next_task_index` by `min_size`
in its eager prefix, before the returned lazy iterator yields any task; the
resulting state stands on its own (active count, outcomes, task receiver and
poisoned flag untouched), so if the iterator is never consumed the increments
persist with no task carrying the reserved indices. -/
theorem C10_prepare_batch_eager_increments (s : Shared) (m : Nat)
    (h : s.numTasks.left + m ≤ u64max) :
    ∃ s1,
      s.prepare_batch_reserve m = some (s.nextTaskIndex, s.nextTaskIndex + m, s1) ∧
      s1.numTasks.left = s.numTasks.left + m ∧
      s1.nextTaskIndex = s.nextTaskIndex + m ∧
      s1.numTasks.right = s.numTasks.right ∧
      s1.outcomes = s.outcomes ∧
      s1.taskRx = s.taskRx ∧
      s1.poisoned = s.poisoned := by
  refine ⟨{ s with
      numTasks := ⟨s.numTasks.left + m, s.numTasks.right⟩
      nextTaskIndex := s.nextTaskIndex + m }, ?_, rfl, rfl, rfl, rfl, rfl, rfl⟩
  unfold Shared.prepare_batch_reserve DualCounter.increment_left
  rw [if_pos h]
  rfl

/-- C10 witness: the eager-increments theorem at a concrete state and
`min_size = 2`. -/
theorem C10_prepare_batch_eager_increments_witness :
    sharedEmptyQueue.numTasks.left + 2 ≤ u64max ∧
    (∃ s1,
      sharedEmptyQueue.prepare_batch_reserve 2 =
        some (sharedEmptyQueue.nextTaskIndex, sharedEmptyQueue.nextTaskIndex + 2, s1) ∧
      s1.numTasks.left = sharedEmptyQueue.numTasks.left + 2 ∧
      s1.nextTaskIndex = sharedEmptyQueue.nextTaskIndex + 2 ∧
      s1.numTasks.right = sharedEmptyQueue.numTasks.right ∧
      s1.outcomes = sharedEmptyQueue.outcomes ∧
      s1.taskRx = sharedEmptyQueue.taskRx ∧
      s1.poisoned = sharedEmptyQueue.poisoned) :=
  ⟨by decide, C10_prepare_batch_eager_increments sharedEmptyQueue 2 (by decide)⟩

/-- The `send_or_store` drain inserts, in order, exactly the `Unprocessed`
outcomes of the tasks that have no sender or whose send fails. -/
theorem send_or_store_spec (tasks : List Task) (m : OutcomeMap) :
    send_or_store tasks m =
      (tasks.filterMap Task.into_unprocessed_try_send).foldl
        (fun m2 o => mapInsert m2 o.index o) m := by
  induction tasks generalizing m with
  | nil => rfl
  | cons t rest ih =>
      cases htx : t.into_unprocessed_try_send with
      | none => simp [send_or_store, htx, List.filterMap_cons, ih]
      | some o => simp [send_or_store, htx, List.filterMap_cons, ih]

/-- C7: `try_into_husk` produces a `Husk` retaining the hive's config values,
its queen, its panic count, and its stored outcomes extended with an
`Unprocessed` outcome for every still-queued task whose send fails or that
has no sender; `Husk::into_hive` then builds a new hive from a builder
carrying an identical config and the same queen, and `collect_unprocessed`
recovers the inputs of the `Unprocessed` outcomes for resubmission. -/
theorem C7_husk_round_trip (s : Shared) :
    s.try_into_husk.config = s.config ∧
    s.try_into_husk.queen = s.queen ∧
    s.try_into_husk.num_panics = s.numPanics ∧
    s.try_into_husk.outcomes =
      (s.taskRx.filterMap Task.into_unprocessed_try_send).foldl
        (fun m o => mapInsert m o.index o) s.outcomes ∧
    (∀ t : Task, t.into_unprocessed_try_send = none ↔ t.tx = some true) ∧
    (∀ t : Task, t.tx ≠ some true →
      t.into_unprocessed_try_send = some (Outcome.unprocessed t.index t.input)) ∧
    s.try_into_husk.into_hive.config = s.config ∧
    s.try_into_husk.into_hive.queen = s.queen ∧
    (∀ (m : OutcomeMap) (i inp : Nat),
      (i, Outcome.unprocessed i inp) ∈ m → inp ∈ collect_unprocessed m) := by
  refine ⟨rfl, rfl, rfl, send_or_store_spec s.taskRx s.outcomes, ?_, ?_, rfl, rfl, ?_⟩
  · intro t
    cases h : t.tx with
    | none => simp [Task.into_unprocessed_try_send, h]
    | some b => cases b <;> simp [Task.into_unprocessed_try_send, h]
  · intro t ht
    cases h : t.tx with
    | none => simp [Task.into_unprocessed_try_send, Task.into_unprocessed, h]
    | some b =>
        cases b
        · simp [Task.into_unprocessed_try_send, Task.into_unprocessed, h]
        · exact absurd h ht
  · intro m i inp hmem
    exact List.mem_filterMap.mpr ⟨(i, Outcome.unprocessed i inp), hmem, rfl⟩

/-- Looking up the head key of an outcomes map returns the head value. -/
theorem mapLookup_cons_self (k : Nat) (v : Outcome) (rest : OutcomeMap) :
    mapLookup ((k, v) :: rest) k = some v := by
  simp [mapLookup]

/-- Removing the head key of an outcomes map returns the tail. -/
theorem mapRemove_cons_self (k : Nat) (v : Outcome) (rest : OutcomeMap) :
    mapRemove ((k, v) :: rest) k = rest := by
  simp [mapRemove]

/-- The take-unprocessed filter predicate at the head key reduces to the head
value's variant test. -/
theorem lookup_is_unprocessed_cons_self (k : Nat) (v : Outcome) (rest : OutcomeMap) :
    lookup_is_unprocessed ((k, v) :: rest) k = v.isUnprocessed := by
  simp [lookup_is_unprocessed, mapLookup]

/-- The take-unprocessed filter predicate ignores a head entry with a
different key. -/
theorem lookup_is_unprocessed_cons_ne (k i : Nat) (v : Outcome) (rest : OutcomeMap)
    (hne : k ≠ i) :
    lookup_is_unprocessed ((k, v) :: rest) i = lookup_is_unprocessed rest i := by
  simp [lookup_is_unprocessed, mapLookup, hne]

/-- With distinct keys, the collected unprocessed indices of a cons whose
head is `Unprocessed` are the head key followed by those of the tail. -/
theorem unprocessed_indices_cons_true (k : Nat) (v : Outcome) (rest : OutcomeMap)
    (hk : k ∉ rest.map Prod.fst) (hv : v.isUnprocessed = true) :
    unprocessed_indices ((k, v) :: rest) = k :: unprocessed_indices rest := by
  unfold unprocessed_indices
  rw [List.map_cons, List.filter_cons, lookup_is_unprocessed_cons_self, hv,
      List.filter_congr (fun i hi => lookup_is_unprocessed_cons_ne k i v rest
        (fun he => hk (he ▸ hi)))]
  simp

/-- With distinct keys, a head entry that is not `Unprocessed` contributes no
collected index. -/
theorem unprocessed_indices_cons_false (k : Nat) (v : Outcome) (rest : OutcomeMap)
    (hk : k ∉ rest.map Prod.fst) (hv : v.isUnprocessed = false) :
    unprocessed_indices ((k, v) :: rest) = unprocessed_indices rest := by
  unfold unprocessed_indices
  rw [List.map_cons, List.filter_cons, lookup_is_unprocessed_cons_self, hv,
      List.filter_congr (fun i hi => lookup_is_unprocessed_cons_ne k i v rest
        (fun he => hk (he ▸ hi)))]
  simp

/-- Removal by a list of indices that avoids the head key passes over the
head entry. -/
theorem remove_all_skip (idxs : List Nat) (k : Nat) (v : Outcome) :
    ∀ (rest : OutcomeMap), k ∉ idxs →
      remove_all idxs ((k, v) :: rest) =
        (remove_all idxs rest).map fun r => (r.1, (k, v) :: r.2) := by
  induction idxs with
  | nil =>
      intro rest hk
      rfl
  | cons i is ih =>
      intro rest hk
      rw [List.mem_cons] at hk
      push_neg at hk
      simp only [remove_all]
      have hlk : mapLookup ((k, v) :: rest) i = mapLookup rest i := by
        simp [mapLookup, hk.1]
      rw [hlk]
      cases h : mapLookup rest i with
      | none => rfl
      | some o =>
          have hrm : mapRemove ((k, v) :: rest) i = (k, v) :: mapRemove rest i := by
            simp [mapRemove, hk.1]
          rw [hrm, ih (mapRemove rest i) hk.2]
          cases remove_all is (mapRemove rest i) <;> rfl

/-- Lookup of a non-`Unprocessed` entry survives the take-unprocessed
removal (phrasing the removal as the filter it computes). -/
theorem mapLookup_filter_keep :
    ∀ (m : OutcomeMap) (i : Nat) (o : Outcome),
      mapLookup m i = some o → o.isUnprocessed = false →
      mapLookup (m.filter fun e => !e.2.isUnprocessed) i = some o := by
  intro m
  induction m with
  | nil =>
      intro i o h _
      simp [mapLookup] at h
  | cons e rest ih =>
      obtain ⟨k, v⟩ := e
      intro i o h ho
      by_cases hki : k = i
      · subst hki
        rw [mapLookup_cons_self] at h
        obtain rfl := Option.some.inj h
        simp [List.filter_cons, ho, mapLookup]
      · have h2 : mapLookup rest i = some o := by
          simpa [mapLookup, hki] using h
        rw [List.filter_cons]
        split
        · simpa [mapLookup, hki] using ih i o h2 ho
        · exact ih i o h2 ho

/-- C8: `take_unprocessed` removes and returns exactly the stored outcomes
whose variant is `Unprocessed` (in storage order), the remaining map is
exactly the non-`Unprocessed` entries, and every outcome of another variant
is still found under its original index. -/
theorem C8_take_unprocessed (m : OutcomeMap) (hnd : (m.map Prod.fst).Nodup) :
    take_unprocessed m =
      some ((m.filter fun e => e.2.isUnprocessed).map Prod.snd,
            m.filter fun e => !e.2.isUnprocessed) ∧
    (∀ i o, mapLookup m i = some o → o.isUnprocessed = false →
      mapLookup (m.filter fun e => !e.2.isUnprocessed) i = some o) := by
  refine ⟨?_, fun i o => mapLookup_filter_keep m i o⟩
  have main : ∀ (m2 : OutcomeMap), (m2.map Prod.fst).Nodup →
      take_unprocessed m2 =
        some ((m2.filter fun e => e.2.isUnprocessed).map Prod.snd,
              m2.filter fun e => !e.2.isUnprocessed) := by
    intro m2
    induction m2 with
    | nil =>
        intro _
        rfl
    | cons e rest ih =>
        obtain ⟨k, v⟩ := e
        intro hnd2
        rw [List.map_cons, List.nodup_cons] at hnd2
        obtain ⟨hk, hnd3⟩ := hnd2
        have ihr := ih hnd3
        unfold take_unprocessed at ihr
        show remove_all (unprocessed_indices ((k, v) :: rest)) ((k, v) :: rest) = _
        cases hv : v.isUnprocessed with
        | true =>
            rw [unprocessed_indices_cons_true k v rest hk hv]
            simp only [remove_all, mapLookup_cons_self, mapRemove_cons_self]
            rw [ihr]
            simp [List.filter_cons, hv]
        | false =>
            rw [unprocessed_indices_cons_false k v rest hk hv]
            have hknot : k ∉ unprocessed_indices rest := fun hmem =>
              hk (List.mem_filter.mp hmem).1
            rw [remove_all_skip (unprocessed_indices rest) k v rest hknot, ihr]
            simp [List.filter_cons, hv]
  exact main m hnd

/-- C8 witness: the take-unprocessed theorem at a concrete four-entry map
with two `Unprocessed` outcomes. -/
theorem C8_take_unprocessed_witness :
    (mapMixed.map Prod.fst).Nodup ∧
    take_unprocessed mapMixed =
      some ((mapMixed.filter fun e => e.2.isUnprocessed).map Prod.snd,
            mapMixed.filter fun e => !e.2.isUnprocessed) :=
  ⟨by decide, (C8_take_unprocessed mapMixed (by decide)).1⟩

end Procpool
